import Mathlib

/-!
Verification of the spark-foundry retrieval-and-orchestration core.

This file shallowly embeds the program's core algorithms in Lean:

* the Reciprocal-Rank-Fusion hybrid ranker
  (SQL function `hybrid_search_spark_items`);
* the Voyage multimodal embedding client (`src/lib/embeddings.ts`,
  `callMultimodalAPI`);
* the `/api/chat/embed` POST handler and the chat route's call to it;
* the tool-use dialogue loop of the chat route
  (`src/app/api/chat/route.ts`, `POST`), as a state-passing function
  over an oracle for the model provider and the database;
* the power-iteration PCA projector and similarity-edge builder
  (`pcaProject`, `cosineSim` and the vectors GET handler);
* the `semantic_search` tool branch of `executeTool`.

External effects (HTTP fetch, the Anthropic API, Postgres) are modelled
as explicit oracle parameters; JavaScript numbers are modelled as exact
rationals, and the opaque `Math.sqrt` / `Math.random` calls appear as
function parameters so every definition stays executable.
-/

namespace SparkFoundry

/-! ### Reciprocal Rank Fusion (`hybrid_search_spark_items`)

The SQL computes, per candidate row of a full outer join of the
full-text and semantic rankings,
`coalesce(1.0/(rrf_k + full_text.rank_ix), 0.0) * full_text_weight +
 coalesce(1.0/(rrf_k + semantic.rank_ix), 0.0) * semantic_weight`,
then orders by score descending and truncates to `match_count`.
A ranking is modelled as the list of row ids in rank order; `row_number()`
assigns ranks starting at 1. -/

/-- One RRF term: `coalesce(1.0 / (rrf_k + rank_ix), 0.0)`.
A missing rank (`none`, the outer-join null) contributes 0. -/
def rrfTerm (rrfK : ℚ) (rank : Option ℕ) : ℚ :=
  match rank with
  | some r => 1 / (rrfK + (r : ℚ))
  | none => 0

/-- The fused RRF score of a candidate with optional ranks in the
full-text and semantic rankings. -/
def rrfScore (ftWeight semWeight rrfK : ℚ) (ftRank semRank : Option ℕ) : ℚ :=
  rrfTerm rrfK ftRank * ftWeight + rrfTerm rrfK semRank * semWeight

/-- `rank_ix` of `x` in a ranked list, counting from `n`. -/
def rankIxFrom {α : Type} [DecidableEq α] (x : α) : List α → ℕ → Option ℕ
  | [], _ => none
  | y :: t, n => if x = y then some n else rankIxFrom x t (n + 1)

/-- `row_number()` rank of `x` in a ranked list (1-based), `none` if absent. -/
def rankIx {α : Type} [DecidableEq α] (l : List α) (x : α) : Option ℕ :=
  rankIxFrom x l 1

/-- Candidate ids of the full outer join of the two rankings:
every id of either ranking, each exactly once. -/
def fusedCandidates {α : Type} [DecidableEq α] (ft sem : List α) : List α :=
  ft ++ sem.filter (fun x => decide (x ∉ ft))

/-- The scored rows produced by the fusion step of
`hybrid_search_spark_items` (before `order by score desc limit match_count`). -/
def fusedRows {α : Type} [DecidableEq α] (ft sem : List α)
    (ftWeight semWeight rrfK : ℚ) : List (α × ℚ) :=
  (fusedCandidates ft sem).map
    (fun x => (x, rrfScore ftWeight semWeight rrfK (rankIx ft x) (rankIx sem x)))

/-- Insert into a score-descending list. -/
def insertDesc {α : Type} (p : α × ℚ) : List (α × ℚ) → List (α × ℚ)
  | [] => [p]
  | q :: t => if q.2 ≤ p.2 then p :: q :: t else q :: insertDesc p t

/-- Sort rows by score descending (`order by score desc`). -/
def sortDesc {α : Type} : List (α × ℚ) → List (α × ℚ)
  | [] => []
  | p :: t => insertDesc p (sortDesc t)

/-- The SQL function `hybrid_search_spark_items`: fuse the two rankings,
sort by fused score descending, truncate to `match_count`. -/
def hybrid_search_spark_items {α : Type} [DecidableEq α] (ft sem : List α)
    (matchCount : ℕ) (ftWeight semWeight rrfK : ℚ) : List (α × ℚ) :=
  (sortDesc (fusedRows ft sem ftWeight semWeight rrfK)).take matchCount

lemma rankIxFrom_isSome_of_mem {α : Type} [DecidableEq α] {x : α} {l : List α}
    (h : x ∈ l) : ∀ n, ∃ r, rankIxFrom x l n = some r := by
  induction l with
  | nil => cases h
  | cons y t ih =>
    intro n
    by_cases hxy : x = y
    · exact ⟨n, by simp [rankIxFrom, hxy]⟩
    · have hx : x ∈ t := by
        cases List.mem_cons.mp h with
        | inl h0 => exact absurd h0 hxy
        | inr h0 => exact h0
      obtain ⟨r, hr⟩ := ih hx (n + 1)
      exact ⟨r, by simp [rankIxFrom, hxy, hr]⟩

lemma rankIxFrom_eq_none_of_not_mem {α : Type} [DecidableEq α] {x : α}
    {l : List α} (h : x ∉ l) : ∀ n, rankIxFrom x l n = none := by
  induction l with
  | nil => intro n; rfl
  | cons y t ih =>
    intro n
    have hxy : x ≠ y := fun hc => h (hc ▸ List.mem_cons_self y t)
    have hx : x ∉ t := fun hc => h (List.mem_cons_of_mem y hc)
    simp [rankIxFrom, hxy, ih hx]

lemma rrfTerm_pos (rank : ℕ) : 0 < rrfTerm 50 (some rank) := by
  have h : (0 : ℚ) < 50 + (rank : ℚ) := by positivity
  simpa [rrfTerm] using one_div_pos.mpr h

lemma rrfTerm_nonneg (rank : Option ℕ) : 0 ≤ rrfTerm 50 rank := by
  cases rank with
  | none => simp [rrfTerm]
  | some r => exact le_of_lt (rrfTerm_pos r)

/-- C6. An item appearing only in the lexical (full-text) ranking and an
item appearing only in the vector (semantic) ranking both receive strictly
positive fused scores under the SQL defaults (`full_text_weight = 1`,
`semantic_weight = 1`, `rrf_k = 50`), and every candidate appearing in
either source ranking appears among the fused scored rows: the fusion is a
set-union outer join, not an intersection. -/
theorem hybrid_union_nonzero_scores {α : Type} [DecidableEq α]
    (ft sem : List α) (x y : α)
    (hxft : x ∈ ft) (hxsem : x ∉ sem) (hysem : y ∈ sem) (hyft : y ∉ ft) :
    0 < rrfScore 1 1 50 (rankIx ft x) (rankIx sem x) ∧
    0 < rrfScore 1 1 50 (rankIx ft y) (rankIx sem y) ∧
    ∀ z : α, (z ∈ ft ∨ z ∈ sem) →
      (z, rrfScore 1 1 50 (rankIx ft z) (rankIx sem z)) ∈ fusedRows ft sem 1 1 50 := by
  refine ⟨?_, ?_, ?_⟩
  · obtain ⟨r, hr⟩ := rankIxFrom_isSome_of_mem hxft 1
    have hterm : 0 < rrfTerm 50 (rankIx ft x) := by
      rw [rankIx, hr]; exact rrfTerm_pos r
    have hother : 0 ≤ rrfTerm 50 (rankIx sem x) := rrfTerm_nonneg _
    simp only [rrfScore, mul_one]
    linarith
  · obtain ⟨r, hr⟩ := rankIxFrom_isSome_of_mem hysem 1
    have hterm : 0 < rrfTerm 50 (rankIx sem y) := by
      rw [rankIx, hr]; exact rrfTerm_pos r
    have hother : 0 ≤ rrfTerm 50 (rankIx ft y) := rrfTerm_nonneg _
    simp only [rrfScore, mul_one]
    linarith
  · intro z hz
    have hmem : z ∈ fusedCandidates ft sem := by
      by_cases hzf : z ∈ ft
      · exact List.mem_append_left _ hzf
      · have hzs : z ∈ sem := hz.resolve_left hzf
        refine List.mem_append_right _ ?_
        simp [List.mem_filter, hzs, hzf]
    simpa [fusedRows] using List.mem_map_of_mem
      (fun x => (x, rrfScore 1 1 50 (rankIx ft x) (rankIx sem x))) hmem

/-- C6 witness: concrete rankings with a lexical-only item 10, a
vector-only item 20, and a shared item 30. -/
theorem hybrid_union_nonzero_scores_witness :
    0 < rrfScore 1 1 50 (rankIx [10, 30] 10) (rankIx [30, 20] 10) ∧
    0 < rrfScore 1 1 50 (rankIx [10, 30] 20) (rankIx [30, 20] 20) ∧
    ∀ z : ℕ, (z ∈ [10, 30] ∨ z ∈ [30, 20]) →
      (z, rrfScore 1 1 50 (rankIx [10, 30] z) (rankIx [30, 20] z)) ∈
        fusedRows [10, 30] [30, 20] 1 1 50 :=
  hybrid_union_nonzero_scores [10, 30] [30, 20] 10 20
    (by decide) (by decide) (by decide) (by decide)

/-- C7. RRF monotonicity at the SQL defaults (`rrf_k = 50`, unit weights):
for a fixed other-source rank, moving a candidate's rank in either source
ranking closer to 1 never decreases the fused score
`1/(50 + lexical_rank) + 1/(50 + vector_rank)`. -/
theorem rrfScore_monotone (r1 r2 : ℕ) (other : Option ℕ) (h : r1 ≤ r2) :
    rrfScore 1 1 50 (some r2) other ≤ rrfScore 1 1 50 (some r1) other ∧
    rrfScore 1 1 50 other (some r2) ≤ rrfScore 1 1 50 other (some r1) := by
  have hterm : rrfTerm 50 (some r2) ≤ rrfTerm 50 (some r1) := by
    simp only [rrfTerm]
    apply one_div_le_one_div_of_le
    · positivity
    · have : (r1 : ℚ) ≤ (r2 : ℚ) := by exact_mod_cast h
      linarith
  constructor
  · simp only [rrfScore, mul_one]
    linarith
  · simp only [rrfScore, mul_one]
    linarith

/-- C7 witness: rank 2 improved to rank 1 with the other-source rank
fixed at 5 never decreases the fused score. -/
theorem rrfScore_monotone_witness :
    rrfScore 1 1 50 (some 2) (some 5) ≤ rrfScore 1 1 50 (some 1) (some 5) ∧
    rrfScore 1 1 50 (some 5) (some 2) ≤ rrfScore 1 1 50 (some 5) (some 1) :=
  rrfScore_monotone 1 2 (some 5) (by decide)

/-! ### Voyage multimodal embedding client (`src/lib/embeddings.ts`)

`callMultimodalAPI(inputs, inputType)` returns one `number[] | null` per
input. The process environment (presence of `VOYAGE_API_KEY`) and the
single `fetch` of the Voyage endpoint are modelled as explicit parameters:
a `fetch` call in JavaScript either rejects (transport failure — the
promise throws at the `await`) or resolves to a response with an `ok`
flag and, when ok, a parsed `data` array of `{embedding, index}` records
in provider order. -/

/-- An embedding vector (`number[]`), modelled over exact rationals. -/
abbrev Vec := List ℚ

/-- One part of a multimodal input (`{type:'text'}` or `{type:'image_url'}`). -/
inductive ContentPart : Type
  | text (s : String)
  | image_url (url : String)
deriving DecidableEq

/-- One input to the Voyage API (`{content: ContentPart[]}`). -/
structure MultimodalInput : Type where
  content : List ContentPart
deriving DecidableEq

/-- The outcome of the single `fetch` to the Voyage endpoint. -/
inductive FetchOutcome : Type
  | throws (msg : String)
  | respond (ok : Bool) (data : List (ℕ × Vec))
deriving DecidableEq

/-- Insert into an index-ascending list (for `data.sort((a,b) => a.index - b.index)`). -/
def insertByIndex (p : ℕ × Vec) : List (ℕ × Vec) → List (ℕ × Vec)
  | [] => [p]
  | q :: t => if p.1 ≤ q.1 then p :: q :: t else q :: insertByIndex p t

/-- Sort provider records ascending by their `index` field. -/
def sortByIndex : List (ℕ × Vec) → List (ℕ × Vec)
  | [] => []
  | p :: t => insertByIndex p (sortByIndex t)

/-- `callMultimodalAPI` of `src/lib/embeddings.ts`: with no API key, one
`null` per input; otherwise `fetch`; a rejected fetch propagates
(`Except.error`); a non-ok response yields one `null` per input; an ok
response is sorted by provider index and its embeddings returned. -/
def callMultimodalAPI (apiKey : Option String) (fetched : FetchOutcome)
    (inputs : List MultimodalInput) (inputType : String) :
    Except String (List (Option Vec)) :=
  match apiKey with
  | none => .ok (inputs.map fun _ => none)
  | some _ =>
    match fetched with
    | .throws m => .error m
    | .respond ok data =>
      if ok = false then .ok (inputs.map fun _ => none)
      else .ok ((sortByIndex data).map fun d => some d.2)

/-- C3 counterexample: with credentials present and the transport failing
(the `fetch` promise rejects), `callMultimodalAPI` throws the transport
error to its caller instead of returning `null` entries — there is no
`try`/`catch` around the `fetch`. The unused `inputType` argument is the
`'query'` mode. -/
theorem callMultimodalAPI_throws_on_transport_error :
    callMultimodalAPI (some "vk-key") (.throws "ECONNRESET")
      [⟨[.text "hello"]⟩] "query" = .error "ECONNRESET" := rfl

/-- C3 amended: whenever the transport itself does not fail (or no API key
is configured, so no request is made), the call never throws: on missing
credentials it returns `null` for every input, and a provider error
reported as a non-ok HTTP response is converted to one `null` entry per
input in caller order. -/
theorem callMultimodalAPI_no_throw (apiKey : Option String)
    (fetched : FetchOutcome) (inputs : List MultimodalInput) (mode : String)
    (hnothrow : apiKey = none ∨ ∀ m, fetched ≠ .throws m) :
    ∃ out, callMultimodalAPI apiKey fetched inputs mode = .ok out ∧
      (apiKey = none → out = inputs.map fun _ => none) ∧
      (∀ data, fetched = .respond false data → out = inputs.map fun _ => none) := by
  cases apiKey with
  | none =>
    exact ⟨inputs.map fun _ => none, rfl, fun _ => rfl, fun _ _ => rfl⟩
  | some k =>
    cases fetched with
    | throws m =>
      cases hnothrow with
      | inl h => cases h
      | inr h => exact absurd rfl (h m)
    | respond ok data =>
      cases ok with
      | false =>
        refine ⟨inputs.map fun _ => none, rfl, ?_, ?_⟩
        · intro h; exact absurd h (by simp)
        · intro d hd; rfl
      | true =>
        refine ⟨_, rfl, ?_, ?_⟩
        · intro h; exact absurd h (by simp)
        · intro d hd; exact absurd hd (by simp)

/-- A concrete two-input batch used to instantiate the C3 theorem. -/
def sampleBatch : List MultimodalInput := [⟨[.text "a"]⟩, ⟨[.text "b"]⟩]

/-- C3 amended witness: a non-ok provider response over a two-input batch
yields `.ok` with a `null` per input. -/
theorem callMultimodalAPI_no_throw_witness :
    ∃ out, callMultimodalAPI (some "vk-key") (.respond false [])
        sampleBatch "document" = .ok out ∧
      (some "vk-key" = none → out = sampleBatch.map fun _ => none) ∧
      (∀ data, FetchOutcome.respond false [] = .respond false data →
        out = sampleBatch.map fun _ => none) :=
  callMultimodalAPI_no_throw (some "vk-key") (.respond false [])
    sampleBatch "document" (Or.inr (fun m h => by cases h))

/-! ### The `/api/chat/embed` POST handler and the session re-embed call

After a completed assistant turn that produced text, the chat route runs
`fetch(baseUrl + '/api/chat/embed', { body: JSON.stringify({ session_id: sessionId }) })`
(route.ts lines 595-605). The handler at `/api/chat/embed` (embed/route.ts)
reads `{ message_ids }` from the body, rejects any body without a
nonempty `message_ids` array with a 400 response, and otherwise embeds
individual `chat_messages` rows that still lack an embedding. Nothing in
it reads `user_messages` or writes `chat_sessions.embedding`. -/

/-- The JSON body of a POST to `/api/chat/embed`, with the fields read by
the handler (`message_ids`) and sent by the chat route (`session_id`). -/
structure EmbedRequestBody : Type where
  message_ids : Option (List String)
  session_id : Option String
deriving DecidableEq

/-- A database write performed by the embed handler. The handler only
ever updates `chat_messages.embedding`; `sessionEmbedding` is included so
the absence of any `chat_sessions.embedding` write is expressible. -/
inductive DbWrite : Type
  | messageEmbedding (id : String) (v : Vec)
  | sessionEmbedding (sessionId : String) (v : Vec)
deriving DecidableEq

/-- Whether a write touches `chat_sessions.embedding`. -/
def DbWrite.isSessionWrite : DbWrite → Bool
  | .sessionEmbedding _ _ => true
  | _ => false

/-- The HTTP response of the embed handler. -/
inductive EmbedResponse : Type
  | badRequest (error : String)
  | okEmbedded (embedded : ℕ)
deriving DecidableEq

/-- Database and encoder oracle for the embed handler: the
`chat_messages` rows with null embedding among the requested ids, the
embedding generator, and per-id update success. -/
structure EmbedDb : Type where
  pendingMessages : List String → List (String × String)
  genEmbedding : String → Option Vec
  updateOk : String → Bool

/-- The loop body of the embed handler over the fetched messages:
generate an embedding per message and update the row when one is
returned, counting successful updates. -/
def embedLoop (db : EmbedDb) : List (String × String) → ℕ × List DbWrite
  | [] => (0, [])
  | m :: t =>
    let rest := embedLoop db t
    match db.genEmbedding m.2 with
    | none => rest
    | some v =>
      if db.updateOk m.1 then (rest.1 + 1, .messageEmbedding m.1 v :: rest.2)
      else (rest.1, .messageEmbedding m.1 v :: rest.2)

/-- The POST handler of `/api/chat/embed`: a body without a nonempty
`message_ids` array is rejected with status 400; otherwise the messages
still lacking embeddings are fetched and embedded one by one. Returns the
response and the list of attempted database writes. -/
def embedPost (body : EmbedRequestBody) (db : EmbedDb) :
    EmbedResponse × List DbWrite :=
  match body.message_ids with
  | none => (.badRequest "message_ids array is required", [])
  | some ids =>
    if ids = [] then (.badRequest "message_ids array is required", [])
    else
      let msgs := db.pendingMessages ids
      if msgs = [] then (.okEmbedded 0, [])
      else
        let r := embedLoop db msgs
        (.okEmbedded r.1, r.2)

/-- The body the chat route sends to `/api/chat/embed` after a completed
assistant turn: `JSON.stringify({ session_id: sessionId })` — no
`message_ids` field. -/
def sessionEmbedRequest (sessionId : String) : EmbedRequestBody :=
  { message_ids := none, session_id := some sessionId }

lemma embedLoop_no_session_write (db : EmbedDb) :
    ∀ msgs : List (String × String),
      (embedLoop db msgs).2.all (fun w => !w.isSessionWrite) = true := by
  intro msgs
  induction msgs with
  | nil => rfl
  | cons m t ih =>
    simp only [embedLoop]
    cases hg : db.genEmbedding m.2 with
    | none => exact ih
    | some v =>
      by_cases hu : db.updateOk m.1 = true
      · simpa [hu, List.all_cons, DbWrite.isSessionWrite] using ih
      · simp only [Bool.not_eq_true] at hu
        simpa [hu, List.all_cons, DbWrite.isSessionWrite] using ih

/-- C2. The session re-embed is broken: the request the chat route issues
after a completed turn (`{ session_id }`, no `message_ids`) is rejected by
the embed handler with a 400 `"message_ids array is required"` response
and performs no database write at all; moreover no input whatsoever makes
the handler write `chat_sessions.embedding`, so the session embedding the
`match_chat_sessions` retrieval path depends on is never recomputed. -/
theorem embedPost_session_request_rejected (sid : String) (db : EmbedDb) :
    embedPost (sessionEmbedRequest sid) db =
      (.badRequest "message_ids array is required", []) ∧
    ∀ (body : EmbedRequestBody) (db2 : EmbedDb),
      (embedPost body db2).2.all (fun w => !w.isSessionWrite) = true := by
  constructor
  · rfl
  · intro body db2
    match hbody : body.message_ids with
    | none => simp [embedPost, hbody]
    | some ids =>
      by_cases hids : ids = []
      · simp [embedPost, hbody, hids]
      · by_cases hmsgs : db2.pendingMessages ids = []
        · simp [embedPost, hbody, hids, hmsgs]
        · simpa [embedPost, hbody, hids, hmsgs] using
            embedLoop_no_session_write db2 (db2.pendingMessages ids)

/-! ### The tool-use dialogue loop (`src/app/api/chat/route.ts`, `POST`)

The SSE body runs, inside one `try`/`catch`/`finally`:
an optional `context` frame; then `for (let turn = 0; turn < 10; turn++)`
with, per iteration, a non-streaming model call (break and emit its text
when `stop_reason === 'end_turn'` or it contains no `tool_use` block;
else `status` frames and concurrent tool execution), followed by a
streaming model call whose text is buffered (flushed as `text` frames and
break under the same condition; else discarded, more `status` frames and
tool execution); after the loop, best-effort persistence and a final
`done` frame. The `catch` emits a single `error` frame; `finally` closes
the channel. The Anthropic calls and the tool batches are oracles indexed
by call count (abstracting the accumulated message list); a `.error`
models a rejected promise reaching the top-level `catch`. Streamed text
chunk granularity is abstracted to one chunk per text block. -/

/-- One content block of a model response (text or a tool-use request). -/
inductive Block : Type
  | text (s : String)
  | toolUse (name : String)
deriving DecidableEq

/-- Whether a block is a `tool_use` block. -/
def Block.isToolUse : Block → Bool
  | .toolUse _ => true
  | .text _ => false

/-- The tool name of a block (`''` for text blocks). -/
def Block.name : Block → String
  | .toolUse n => n
  | .text _ => ""

/-- A model response: its `stop_reason` string and content blocks. -/
structure ModelResponse : Type where
  stopReason : String
  content : List Block
deriving DecidableEq

/-- A typed SSE frame of the outbound event stream. Payloads irrelevant
to frame ordering (context items, the `done` frame's session id) are
omitted. -/
inductive Frame : Type
  | context
  | text (s : String)
  | status (s : String)
  | error (s : String)
  | done
deriving DecidableEq

/-- The `TOOL_LABELS` map with its `'Processing...'` default. -/
def toolLabel : String → String
  | "semantic_search" => "Searching your Spark..."
  | "keyword_search" => "Searching by keyword..."
  | "list_items" => "Loading items..."
  | "get_spark_details" => "Getting Spark details..."
  | _ => "Processing..."

/-- Text extracted from a non-streamed response:
`if (block.type === 'text' && block.text)` skips empty strings. -/
def textBlocks (content : List Block) : List String :=
  content.filterMap fun b =>
    match b with
    | .text s => if s = "" then none else some s
    | .toolUse _ => none

/-- The buffered text chunks of a streamed round (`stream.on('text', ...)`). -/
def streamChunks (content : List Block) : List String :=
  content.filterMap fun b =>
    match b with
    | .text s => some s
    | .toolUse _ => none

/-- Oracle for a turn's external calls: the n-th Anthropic API call
(non-streaming and streaming alike, in call order) and the n-th batch of
`executeTool` calls. `.error` is a rejected promise. -/
structure TurnEnv : Type where
  model : ℕ → Except String ModelResponse
  toolExec : ℕ → Except String Unit

/-- The streamed half of one loop iteration (route.ts lines 518-568):
the round's text is buffered; if `stop_reason === 'end_turn'` or the
final message has no `tool_use` block, the buffer is flushed as `text`
frames and the loop breaks (`true`); otherwise the buffer is discarded
and a `status` frame per requested tool is emitted instead (`false`,
loop continues with tool execution). Returns the frames this code block
emits and the break flag. -/
def streamRound (finalMessage : ModelResponse) : List Frame × Bool :=
  let finalToolUses := finalMessage.content.filter Block.isToolUse
  if finalMessage.stopReason = "end_turn" ∨ finalToolUses = [] then
    ((streamChunks finalMessage.content).map Frame.text, true)
  else
    (finalToolUses.map (fun b => Frame.status (toolLabel b.name)), false)

/-- The outcome of the `for` loop: the frames it emitted, the
accumulated `fullResponse`, the number of iterations entered, and the
exception that escaped it, if any. -/
structure LoopOut : Type where
  frames : List Frame
  fullResponse : String
  rounds : ℕ
  err : Option String
deriving DecidableEq

/-- The `for (let turn = 0; turn < 10; turn++)` loop of the SSE body,
with the remaining iteration budget as fuel (starting at 10), the model
call counter, the tool-batch counter, the iterations entered so far and
the accumulated `fullResponse`. -/
def loopGo (env : TurnEnv) :
    ℕ → ℕ → ℕ → ℕ → String → LoopOut
  | 0, _, _, rounds, fullResponse =>
    { frames := [], fullResponse := fullResponse, rounds := rounds, err := none }
  | fuel + 1, calls, tcalls, rounds, fullResponse =>
    match env.model calls with
    | .error e =>
      { frames := [], fullResponse := fullResponse, rounds := rounds + 1,
        err := some e }
    | .ok response =>
      let toolUseBlocks := response.content.filter Block.isToolUse
      if response.stopReason = "end_turn" ∨ toolUseBlocks = [] then
        { frames := (textBlocks response.content).map Frame.text,
          fullResponse := (textBlocks response.content).foldl (· ++ ·) fullResponse,
          rounds := rounds + 1, err := none }
      else
        let statuses := toolUseBlocks.map fun b => Frame.status (toolLabel b.name)
        match env.toolExec tcalls with
        | .error e =>
          { frames := statuses, fullResponse := fullResponse,
            rounds := rounds + 1, err := some e }
        | .ok _ =>
          match env.model (calls + 1) with
          | .error e =>
            { frames := statuses ++ [Frame.status "Generating response..."],
              fullResponse := fullResponse, rounds := rounds + 1, err := some e }
          | .ok finalMessage =>
            let sr := streamRound finalMessage
            let pre := statuses ++ [Frame.status "Generating response..."] ++ sr.1
            if sr.2 then
              { frames := pre,
                fullResponse :=
                  (streamChunks finalMessage.content).foldl (· ++ ·) fullResponse,
                rounds := rounds + 1, err := none }
            else
              match env.toolExec (tcalls + 1) with
              | .error e =>
                { frames := pre, fullResponse := fullResponse,
                  rounds := rounds + 1, err := some e }
              | .ok _ =>
                let rest := loopGo env fuel (calls + 2) (tcalls + 2)
                  (rounds + 1) fullResponse
                { frames := pre ++ rest.frames,
                  fullResponse := rest.fullResponse,
                  rounds := rest.rounds, err := rest.err }

/-- The complete frame sequence of one chat turn's outbound stream: an
initial `context` frame when retrieval produced ranked items; the loop's
frames; then the `try` body ends with a `done` frame, while the `catch`
appends a single `error` frame to whatever was already emitted.
`finally` closes the channel, so nothing follows the last list entry. -/
def runTurn (env : TurnEnv) (hasContext : Bool) : List Frame :=
  let initial : List Frame := if hasContext then [Frame.context] else []
  let out := loopGo env 10 0 0 0 ""
  match out.err with
  | none => initial ++ out.frames ++ [Frame.done]
  | some e => initial ++ out.frames ++ [Frame.error e]

/-- Number of `for` iterations a turn enters. -/
def turnRounds (env : TurnEnv) : ℕ := (loopGo env 10 0 0 0 "").rounds

/-- Whether a frame is an `error` frame. -/
def Frame.isError : Frame → Bool
  | .error _ => true
  | _ => false

/-- Whether a frame is the `done` frame. -/
def Frame.isDone : Frame → Bool
  | .done => true
  | _ => false

/-- Frames a still-running loop may emit: neither `error` nor `done`. -/
def cleanFrames (l : List Frame) : Prop :=
  ∀ f ∈ l, f.isError = false ∧ f.isDone = false

lemma cleanFrames_append {l1 l2 : List Frame} (h1 : cleanFrames l1)
    (h2 : cleanFrames l2) : cleanFrames (l1 ++ l2) := by
  intro f hf
  rcases List.mem_append.mp hf with h | h
  · exact h1 f h
  · exact h2 f h

lemma cleanFrames_map_text (xs : List String) :
    cleanFrames (xs.map Frame.text) := by
  intro f hf
  obtain ⟨s, -, rfl⟩ := List.mem_map.mp hf
  exact ⟨rfl, rfl⟩

lemma cleanFrames_map_status {α : Type} (g : α → String) (xs : List α) :
    cleanFrames (xs.map (fun b => Frame.status (g b))) := by
  intro f hf
  obtain ⟨s, -, rfl⟩ := List.mem_map.mp hf
  exact ⟨rfl, rfl⟩

lemma cleanFrames_singleton_status (s : String) :
    cleanFrames [Frame.status s] := by
  intro f hf
  simp only [List.mem_singleton] at hf
  subst hf
  exact ⟨rfl, rfl⟩

lemma cleanFrames_streamRound (fm : ModelResponse) :
    cleanFrames (streamRound fm).1 := by
  unfold streamRound
  by_cases hc : fm.stopReason = "end_turn" ∨ fm.content.filter Block.isToolUse = []
  · rw [if_pos hc]
    exact cleanFrames_map_text (streamChunks fm.content)
  · rw [if_neg hc]
    exact cleanFrames_map_status (fun b : Block => toolLabel b.name)
      (fm.content.filter Block.isToolUse)

lemma loopGo_clean (env : TurnEnv) :
    ∀ (fuel calls tcalls rounds : ℕ) (fullResponse : String),
      cleanFrames (loopGo env fuel calls tcalls rounds fullResponse).frames := by
  intro fuel
  induction fuel with
  | zero => intro _ _ _ _ f hf; cases hf
  | succ n ih =>
    intro calls tcalls rounds fullResponse
    unfold loopGo
    cases hm : env.model calls with
    | error e => intro f hf; cases hf
    | ok response =>
      dsimp only []
      by_cases hc : response.stopReason = "end_turn" ∨
          response.content.filter Block.isToolUse = []
      · rw [if_pos hc]
        exact cleanFrames_map_text (textBlocks response.content)
      · rw [if_neg hc]
        cases ht : env.toolExec tcalls with
        | error e =>
          exact cleanFrames_map_status (fun b : Block => toolLabel b.name) _
        | ok u =>
          cases hm2 : env.model (calls + 1) with
          | error e =>
            exact cleanFrames_append
              (cleanFrames_map_status (fun b : Block => toolLabel b.name) _)
              (cleanFrames_singleton_status _)
          | ok finalMessage =>
            dsimp only []
            have hpre : cleanFrames
                ((response.content.filter Block.isToolUse).map
                    (fun b => Frame.status (toolLabel b.name)) ++
                  [Frame.status "Generating response..."] ++
                  (streamRound finalMessage).1) :=
              cleanFrames_append
                (cleanFrames_append
                  (cleanFrames_map_status (fun b : Block => toolLabel b.name) _)
                  (cleanFrames_singleton_status _))
                (cleanFrames_streamRound finalMessage)
            cases hb : (streamRound finalMessage).2 with
            | true =>
              rw [if_pos rfl]
              exact hpre
            | false =>
              rw [if_neg (fun hcontra => Bool.noConfusion hcontra)]
              cases ht2 : env.toolExec (tcalls + 1) with
              | error e => exact hpre
              | ok u2 => exact cleanFrames_append hpre (ih _ _ _ _)

lemma loopGo_rounds_le (env : TurnEnv) :
    ∀ (fuel calls tcalls rounds : ℕ) (fullResponse : String),
      (loopGo env fuel calls tcalls rounds fullResponse).rounds ≤ rounds + fuel := by
  intro fuel
  induction fuel with
  | zero =>
    intro _ _ rounds _
    show rounds ≤ rounds + 0
    omega
  | succ n ih =>
    intro calls tcalls rounds fullResponse
    unfold loopGo
    cases hm : env.model calls with
    | error e =>
      show rounds + 1 ≤ rounds + (n + 1)
      omega
    | ok response =>
      dsimp only []
      by_cases hc : response.stopReason = "end_turn" ∨
          response.content.filter Block.isToolUse = []
      · rw [if_pos hc]
        show rounds + 1 ≤ rounds + (n + 1)
        omega
      · rw [if_neg hc]
        cases ht : env.toolExec tcalls with
        | error e =>
          show rounds + 1 ≤ rounds + (n + 1)
          omega
        | ok u =>
          cases hm2 : env.model (calls + 1) with
          | error e =>
            show rounds + 1 ≤ rounds + (n + 1)
            omega
          | ok finalMessage =>
            dsimp only []
            cases hb : (streamRound finalMessage).2 with
            | true =>
              rw [if_pos rfl]
              show rounds + 1 ≤ rounds + (n + 1)
              omega
            | false =>
              rw [if_neg (fun hcontra => Bool.noConfusion hcontra)]
              cases ht2 : env.toolExec (tcalls + 1) with
              | error e =>
                show rounds + 1 ≤ rounds + (n + 1)
                omega
              | ok u2 =>
                show (loopGo env n (calls + 2) (tcalls + 2) (rounds + 1)
                  fullResponse).rounds ≤ rounds + (n + 1)
                have := ih (calls + 2) (tcalls + 2) (rounds + 1) fullResponse
                omega

lemma loopGo_no_err (env : TurnEnv)
    (hm : ∀ n, ∃ r, env.model n = .ok r)
    (ht : ∀ n, env.toolExec n = .ok ()) :
    ∀ (fuel calls tcalls rounds : ℕ) (fullResponse : String),
      (loopGo env fuel calls tcalls rounds fullResponse).err = none := by
  intro fuel
  induction fuel with
  | zero => intro _ _ _ _; rfl
  | succ n ih =>
    intro calls tcalls rounds fullResponse
    obtain ⟨response, hresp⟩ := hm calls
    unfold loopGo
    rw [hresp]
    dsimp only []
    by_cases hc : response.stopReason = "end_turn" ∨
        response.content.filter Block.isToolUse = []
    · rw [if_pos hc]
    · rw [if_neg hc]
      rw [ht tcalls]
      obtain ⟨finalMessage, hfinal⟩ := hm (calls + 1)
      rw [hfinal]
      dsimp only []
      cases hb : (streamRound finalMessage).2 with
      | true => rw [if_pos rfl]
      | false =>
        rw [if_neg (fun hcontra => Bool.noConfusion hcontra)]
        rw [ht (tcalls + 1)]
        show (loopGo env n (calls + 2) (tcalls + 2) (rounds + 1)
          fullResponse).err = none
        exact ih (calls + 2) (tcalls + 2) (rounds + 1) fullResponse

lemma countP_eq_zero_of_clean {l : List Frame} (h : cleanFrames l) :
    l.countP Frame.isError = 0 ∧ l.countP Frame.isDone = 0 := by
  constructor
  · rw [List.countP_eq_zero]
    intro f hf
    rw [(h f hf).1]
    exact Bool.false_ne_true
  · rw [List.countP_eq_zero]
    intro f hf
    rw [(h f hf).2]
    exact Bool.false_ne_true

lemma countP_done_concat_done (l : List Frame) :
    (l ++ [Frame.done]).countP Frame.isDone = l.countP Frame.isDone + 1 := by
  simp [List.countP_append, List.countP_cons, Frame.isDone]

lemma countP_err_concat_done (l : List Frame) :
    (l ++ [Frame.done]).countP Frame.isError = l.countP Frame.isError := by
  simp [List.countP_append, List.countP_cons, Frame.isError]

lemma countP_done_concat_error (l : List Frame) (e : String) :
    (l ++ [Frame.error e]).countP Frame.isDone = l.countP Frame.isDone := by
  simp [List.countP_append, List.countP_cons, Frame.isDone]

lemma countP_err_concat_error (l : List Frame) (e : String) :
    (l ++ [Frame.error e]).countP Frame.isError = l.countP Frame.isError + 1 := by
  simp [List.countP_append, List.countP_cons, Frame.isError]

lemma cleanFrames_initial (hasContext : Bool) :
    cleanFrames (if hasContext then [Frame.context] else []) := by
  cases hasContext with
  | false => intro f hf; cases hf
  | true =>
    intro f hf
    simp only [if_true, List.mem_singleton] at hf
    subst hf
    exact ⟨rfl, rfl⟩

/-- An environment whose very first Anthropic call rejects (a
transport/provider failure reaching the top-level `catch`). -/
def envThrow : TurnEnv :=
  { model := fun _ => .error "overloaded_error",
    toolExec := fun _ => .ok () }

/-- C1 counterexample: when the provider call fails at the top level of
the turn, the `catch` block emits the `error` frame and `finally` closes
the channel — no `done` frame follows it, so the final frame on this exit
path is `error`, not `done`. -/
theorem error_frame_is_terminal_not_done :
    runTurn envThrow false = [Frame.error "overloaded_error"] ∧
    (runTurn envThrow false).getLast? ≠ some Frame.done := by decide

/-- C1 amended: on every exit path the channel is closed right after a
terminal frame, and the terminal frame is `done` on the normal and
budget-exhaustion paths (with no `error` frame anywhere in the stream),
while when a transport/provider failure is caught at the top level the
terminal frame is the single `error` frame and no `done` frame is emitted
at all. -/
theorem terminal_frame_dichotomy (env : TurnEnv) (hasContext : Bool) :
    ((runTurn env hasContext).getLast? = some Frame.done ∧
      (runTurn env hasContext).countP Frame.isError = 0 ∧
      (runTurn env hasContext).countP Frame.isDone = 1) ∨
    (∃ e, (runTurn env hasContext).getLast? = some (Frame.error e) ∧
      (runTurn env hasContext).countP Frame.isError = 1 ∧
      (runTurn env hasContext).countP Frame.isDone = 0) := by
  have hinit := cleanFrames_initial hasContext
  have hloop := loopGo_clean env 10 0 0 0 ""
  have hclean := cleanFrames_append hinit hloop
  obtain ⟨herr0, hdone0⟩ := countP_eq_zero_of_clean hclean
  unfold runTurn
  dsimp only []
  cases hE : (loopGo env 10 0 0 0 "").err with
  | none =>
    left
    refine ⟨List.getLast?_concat _, ?_, ?_⟩
    · rw [countP_err_concat_done]
      exact herr0
    · rw [countP_done_concat_done, hdone0]
  | some e =>
    right
    refine ⟨e, List.getLast?_concat _, ?_, ?_⟩
    · rw [countP_err_concat_error, herr0]
    · rw [countP_done_concat_error]
      exact hdone0

/-- C4. For any model behavior that always requests a tool call (and
tool batches that complete), the `for (turn < 10)` budget forces
termination: at most 10 loop iterations are entered, the turn ends, and
the `done` frame is emitted exactly once, as the terminal frame. -/
theorem loop_budget_forces_done_once (env : TurnEnv) (hasContext : Bool)
    (hm : ∀ n, ∃ r, env.model n = .ok r ∧
      r.content.filter Block.isToolUse ≠ [] ∧ r.stopReason ≠ "end_turn")
    (ht : ∀ n, env.toolExec n = .ok ()) :
    (runTurn env hasContext).countP Frame.isDone = 1 ∧
    (runTurn env hasContext).getLast? = some Frame.done ∧
    turnRounds env ≤ 10 := by
  have hm' : ∀ n, ∃ r, env.model n = .ok r := by
    intro n
    obtain ⟨r, hr, -, -⟩ := hm n
    exact ⟨r, hr⟩
  have hE : (loopGo env 10 0 0 0 "").err = none :=
    loopGo_no_err env hm' ht 10 0 0 0 ""
  have hinit := cleanFrames_initial hasContext
  have hloop := loopGo_clean env 10 0 0 0 ""
  obtain ⟨-, hdone0⟩ := countP_eq_zero_of_clean
    (cleanFrames_append hinit hloop)
  refine ⟨?_, ?_, ?_⟩
  · unfold runTurn
    dsimp only []
    rw [hE]
    dsimp only []
    rw [countP_done_concat_done, hdone0]
  · unfold runTurn
    dsimp only []
    rw [hE]
    dsimp only []
    exact List.getLast?_concat _
  · have := loopGo_rounds_le env 10 0 0 0 ""
    unfold turnRounds
    omega

/-- An environment whose model always requests one more tool call. -/
def envAllTools : TurnEnv :=
  { model := fun _ => .ok
      { stopReason := "tool_use", content := [Block.toolUse "semantic_search"] },
    toolExec := fun _ => .ok () }

/-- C4 witness: under the always-tool-calling environment the turn emits
`done` exactly once as the terminal frame within the 10-round budget. -/
theorem loop_budget_forces_done_once_witness :
    (runTurn envAllTools true).countP Frame.isDone = 1 ∧
    (runTurn envAllTools true).getLast? = some Frame.done ∧
    turnRounds envAllTools ≤ 10 :=
  loop_budget_forces_done_once envAllTools true
    (fun _ => ⟨_, rfl, by decide, by decide⟩) (fun _ => rfl)

/-- A streamed final message reporting `end_turn` while still containing
a trailing `tool_use` block. -/
def endTurnWithTool : ModelResponse :=
  { stopReason := "end_turn",
    content := [Block.text "partial answer", Block.toolUse "semantic_search"] }

/-- C5 counterexample: the flush condition is the disjunction
`stop_reason === 'end_turn' || finalToolUses.length === 0`, so a streamed
round whose final message reports `end_turn` while still containing a
trailing `tool_use` block flushes its buffered text as `text` frames and
breaks, despite the trailing tool call. -/
theorem stream_flush_despite_trailing_tool :
    endTurnWithTool.content.filter Block.isToolUse ≠ [] ∧
    (streamRound endTurnWithTool).1 = [Frame.text "partial answer"] ∧
    (streamRound endTurnWithTool).2 = true := by decide

/-- C5 amended: in a streamed round, the buffered text is flushed as
`text` frames (and the loop breaks) exactly when the round's final
message has `stop_reason` `'end_turn'` or contains no tool-use block;
whenever a tool call is present and `stop_reason` is not `'end_turn'`,
no buffered text is emitted — only a `status` frame per requested tool —
and the loop continues with tool execution. -/
theorem stream_round_flush_characterization (fm : ModelResponse) :
    ((fm.stopReason = "end_turn" ∨ fm.content.filter Block.isToolUse = []) →
      (streamRound fm).1 = (streamChunks fm.content).map Frame.text ∧
      (streamRound fm).2 = true) ∧
    (fm.stopReason ≠ "end_turn" → fm.content.filter Block.isToolUse ≠ [] →
      (streamRound fm).1 = (fm.content.filter Block.isToolUse).map
          (fun b => Frame.status (toolLabel b.name)) ∧
      (∀ s, Frame.text s ∉ (streamRound fm).1) ∧
      (streamRound fm).2 = false) := by
  constructor
  · intro hc
    unfold streamRound
    rw [if_pos hc]
    exact ⟨rfl, rfl⟩
  · intro hstop htool
    have hc : ¬(fm.stopReason = "end_turn" ∨
        fm.content.filter Block.isToolUse = []) := by
      intro h
      cases h with
      | inl h => exact hstop h
      | inr h => exact htool h
    refine ⟨?_, ?_, ?_⟩
    · unfold streamRound
      rw [if_neg hc]
    · intro s hs
      unfold streamRound at hs
      rw [if_neg hc] at hs
      obtain ⟨b, -, hb⟩ := List.mem_map.mp hs
      cases hb
    · unfold streamRound
      rw [if_neg hc]

/-- A streamed final message with text and no tool call. -/
def plainTextMessage : ModelResponse :=
  { stopReason := "end_turn", content := [Block.text "final answer"] }

/-- A streamed final message with buffered text and a further tool call. -/
def toolAfterTextMessage : ModelResponse :=
  { stopReason := "tool_use",
    content := [Block.text "speculative", Block.toolUse "keyword_search"] }

/-- C5 amended witness: a tool-free round flushes its text; a round with
a further tool call and `stop_reason` `'tool_use'` discards it. -/
theorem stream_round_flush_characterization_witness :
    ((streamRound plainTextMessage).1 =
        (streamChunks plainTextMessage.content).map Frame.text ∧
      (streamRound plainTextMessage).2 = true) ∧
    ((streamRound toolAfterTextMessage).1 =
        (toolAfterTextMessage.content.filter Block.isToolUse).map
          (fun b => Frame.status (toolLabel b.name)) ∧
      (∀ s, Frame.text s ∉ (streamRound toolAfterTextMessage).1) ∧
      (streamRound toolAfterTextMessage).2 = false) :=
  ⟨(stream_round_flush_characterization plainTextMessage).1 (Or.inl rfl),
   (stream_round_flush_characterization toolAfterTextMessage).2
     (by decide) (by decide)⟩

/-! ### The PCA projector (`pcaProject` of the vectors GET route)

`pcaProject(embeddings)` centers the data, builds the N×N Gram matrix,
extracts up to `min(3, N)` components by 50-step deflated power
iteration, projects coordinate `c` of item `i` as
`v_c[i] * sqrt(eigenvalue_c)` when `c` is set and `eigenvalue_c > 1e-12`
(else 0), and rescales all coordinates so the maximum absolute
coordinate maps to ±3. `Math.sqrt` and the `Math.random() - 0.5`
initialisation are opaque externals, passed as the parameters `sqrtQ`
(applied to the squared norm and to eigenvalues) and `init` (the start
vector of component `c`). -/

/-- The `1e-12` degenerate-signal threshold. -/
def eps12 : ℚ := 1 / 1000000000000

/-- Dot product of two vectors (componentwise, as the source's
accumulation loops). -/
def dotQ (a b : Vec) : ℚ := (List.zipWith (· * ·) a b).sum

/-- Componentwise difference (`v - mean[j]`). -/
def vsub (a b : Vec) : Vec := List.zipWith (· - ·) a b

/-- Columnwise sum of the embedding rows. -/
def colSum (embs : List Vec) (D : ℕ) : Vec :=
  embs.foldl (fun acc e => List.zipWith (· + ·) acc e) (List.replicate D 0)

/-- The mean embedding (`mean[j] = Σ_i emb_i[j] / N`). -/
def meanVec (embs : List Vec) (D : ℕ) : Vec :=
  (colSum embs D).map (fun v => v / (embs.length : ℚ))

/-- The N×N Gram matrix of the centered rows (`gram[i][j] = c_i · c_j`). -/
def gramMatrix (c : List Vec) : List Vec :=
  c.map (fun ci => c.map (fun cj => dotQ ci cj))

/-- Matrix-vector product (`Av[i] = Σ_j A[i][j] v[j]`). -/
def matVec (A : List Vec) (v : Vec) : Vec := A.map (fun row => dotQ row v)

/-- Power iteration with the source's in-loop break: repeat `Av`;
`norm = sqrt(Σ Av_i²)`; stop early (keeping the current `v`) when
`norm < 1e-12`; else continue from `Av / norm`. -/
def powerIterate (sqrtQ : ℚ → ℚ) (A : List Vec) : ℕ → Vec → Vec
  | 0, v => v
  | k + 1, v =>
    let av := matVec A v
    let norm := sqrtQ (dotQ av av)
    if norm < eps12 then v
    else powerIterate sqrtQ A k (av.map (fun x => x / norm))

/-- Deflation `A[i][j] -= eigenvalue * v[i] * v[j]`. -/
def deflate (A : List Vec) (lam : ℚ) (v : Vec) : List Vec :=
  (A.zip v).map (fun rv => ((rv.1).zip v).map (fun av => av.1 - lam * rv.2 * av.2))

/-- The component-extraction loop: for components `c, c+1, ...` (still
`k` to extract) run 50 power-iteration steps from `init c`, record the
Rayleigh eigenvalue `v · Av`, and deflate before the next component. -/
def extractComponents (sqrtQ : ℚ → ℚ) (init : ℕ → Vec) :
    ℕ → ℕ → List Vec → List (Vec × ℚ)
  | 0, _, _ => []
  | k + 1, c, A =>
    let v := powerIterate sqrtQ A 50 (init c)
    let lam := dotQ v (matVec A v)
    (v, lam) :: extractComponents sqrtQ init k (c + 1) (deflate A lam v)

/-- Projection before rescaling: coordinate `c` of item `i` is
`v_c[i] * sqrt(eigenvalue_c)` when component `c` exists and
`eigenvalue_c > 1e-12`, else 0. -/
def projectCoords (sqrtQ : ℚ → ℚ) (comps : List (Vec × ℚ)) (N : ℕ) :
    List Vec :=
  (List.range N).map (fun i =>
    (List.range 3).map (fun c =>
      match comps.get? c with
      | some vl => if vl.2 > eps12 then (vl.1.getD i 0) * sqrtQ vl.2 else 0
      | none => 0))

/-- The whole pipeline up to (but excluding) the final rescale. -/
def pcaRaw (sqrtQ : ℚ → ℚ) (init : ℕ → Vec) (embs : List Vec) : List Vec :=
  let N := embs.length
  let D := (embs.headD []).length
  let mean := meanVec embs D
  let centered := embs.map (fun e => vsub e mean)
  let gram := gramMatrix centered
  let comps := extractComponents sqrtQ init (min 3 N) 0 gram
  projectCoords sqrtQ comps N

/-- `Math.max`, kernel-computable over ℚ. -/
def maxQ (a b : ℚ) : ℚ := if a < b then b else a

/-- `Math.abs`, kernel-computable over ℚ. -/
def absQ (v : ℚ) : ℚ := if v < 0 then -v else v

lemma maxQ_eq_max (a b : ℚ) : maxQ a b = max a b := by
  unfold maxQ
  rcases lt_or_ge a b with h | h
  · rw [if_pos h, max_eq_right (le_of_lt h)]
  · rw [if_neg (not_lt.mpr h), max_eq_left h]

lemma absQ_eq_abs (v : ℚ) : absQ v = |v| := by
  unfold absQ
  rcases lt_or_ge v 0 with h | h
  · rw [if_pos h, abs_of_neg h]
  · rw [if_neg (not_lt.mpr h), abs_of_nonneg h]

/-- Maximum absolute coordinate over all positions (accumulated from 0,
as the source's `maxAbs` loop). -/
def maxAbsCoord (ps : List Vec) : ℚ :=
  ps.foldl (fun m p => p.foldl (fun m2 v => maxQ m2 (absQ v)) m) 0

/-- The final rescale: `scale = maxAbs > 1e-12 ? 3 / maxAbs : 1`,
applied to every coordinate. -/
def rescale (ps : List Vec) : List Vec :=
  let m := maxAbsCoord ps
  let scale := if m > eps12 then 3 / m else 1
  ps.map (fun p => p.map (fun v => v * scale))

/-- `pcaProject` of embed/vectors route.ts: project, then rescale to the
±3 visual bound. (`N = 0` returns `[]` before any work, which the
pipeline below also does.) -/
def pcaProject (sqrtQ : ℚ → ℚ) (init : ℕ → Vec) (embs : List Vec) : List Vec :=
  if embs.length = 0 then [] else rescale (pcaRaw sqrtQ init embs)

lemma zipWith_add_replicate_zero (e : Vec) :
    List.zipWith (· + ·) (List.replicate e.length 0) e = e := by
  induction e with
  | nil => rfl
  | cons h t ih => simp [List.replicate_succ, ih]

lemma meanVec_single (e : Vec) : meanVec [e] e.length = e := by
  unfold meanVec colSum
  simp only [List.foldl_cons, List.foldl_nil, List.length_singleton]
  rw [zipWith_add_replicate_zero]
  simp

lemma vsub_self (e : Vec) : vsub e e = List.replicate e.length 0 := by
  unfold vsub
  induction e with
  | nil => rfl
  | cons h t ih => simp [List.replicate_succ, ih]

lemma dotQ_replicate_zero (n : ℕ) : ∀ v : Vec, dotQ (List.replicate n 0) v = 0 := by
  induction n with
  | zero => intro v; rfl
  | succ k ih =>
    intro v
    cases v with
    | nil => rfl
    | cons h t =>
      simp only [dotQ, List.replicate_succ, List.zipWith_cons_cons, List.sum_cons,
        zero_mul, zero_add]
      exact ih t

lemma dotQ_zero_singleton_right (v : Vec) : dotQ v [0] = 0 := by
  cases v with
  | nil => rfl
  | cons h t =>
    simp [dotQ, List.zipWith]

lemma dotQ_zero_singleton_left (v : Vec) : dotQ [0] v = 0 := by
  cases v with
  | nil => rfl
  | cons h t =>
    simp [dotQ, List.zipWith]

lemma matVec_zero_matrix (v : Vec) : matVec [[0]] v = [0] := by
  unfold matVec
  simp only [List.map_cons, List.map_nil]
  rw [dotQ_zero_singleton_left]

lemma extractComponents_zero_gram (sqrtQ : ℚ → ℚ) (init : ℕ → Vec) :
    ∃ v, extractComponents sqrtQ init 1 0 [[0]] = [(v, 0)] := by
  refine ⟨powerIterate sqrtQ [[0]] 50 (init 0), ?_⟩
  unfold extractComponents
  dsimp only []
  rw [matVec_zero_matrix, dotQ_zero_singleton_right]
  rfl

lemma projectCoords_single_zero (sqrtQ : ℚ → ℚ) (v : Vec) :
    projectCoords sqrtQ [(v, 0)] 1 = [[0, 0, 0]] := by
  unfold projectCoords
  rw [show List.range 1 = [0] from rfl, show List.range 3 = [0, 1, 2] from rfl]
  simp only [List.map_cons, List.map_nil]
  have h0 : ¬((0 : ℚ) > eps12) := by norm_num [eps12]
  have hget0 : (([(v, 0)] : List (Vec × ℚ)).get? 0) = some (v, 0) := rfl
  have hget1 : (([(v, 0)] : List (Vec × ℚ)).get? 1) = none := rfl
  have hget2 : (([(v, 0)] : List (Vec × ℚ)).get? 2) = none := rfl
  rw [hget0, hget1, hget2]
  dsimp only []
  rw [if_neg h0]

lemma rowFold_scale (s : ℚ) (hs : 0 ≤ s) :
    ∀ (p : Vec) (a : ℚ),
      (p.map (fun v => v * s)).foldl (fun m2 v => maxQ m2 (absQ v)) (a * s) =
        (p.foldl (fun m2 v => maxQ m2 (absQ v)) a) * s := by
  intro p
  induction p with
  | nil => intro a; rfl
  | cons h t ih =>
    intro a
    simp only [List.map_cons, List.foldl_cons, maxQ_eq_max, absQ_eq_abs]
    have habs : |h * s| = |h| * s := by
      rw [abs_mul, abs_of_nonneg hs]
    have hstep : max (a * s) (|h| * s) = max a |h| * s :=
      (max_mul_of_nonneg _ _ hs).symm
    rw [habs, hstep]
    have ih2 := ih (max a |h|)
    simpa only [maxQ_eq_max, absQ_eq_abs] using ih2

lemma maxAbsCoord_scale (s : ℚ) (hs : 0 ≤ s) (ps : List Vec) :
    maxAbsCoord (ps.map (fun p => p.map (fun v => v * s))) =
      maxAbsCoord ps * s := by
  unfold maxAbsCoord
  suffices h : ∀ a, (ps.map (fun p => p.map (fun v => v * s))).foldl
      (fun m p => p.foldl (fun m2 v => maxQ m2 (absQ v)) m) (a * s) =
      (ps.foldl (fun m p => p.foldl (fun m2 v => maxQ m2 (absQ v)) m) a) * s by
    have h0 := h 0
    rwa [zero_mul] at h0
  intro a
  induction ps generalizing a with
  | nil => rfl
  | cons p t ih =>
    simp only [List.map_cons, List.foldl_cons]
    rw [rowFold_scale s hs p a]
    exact ih _

lemma maxAbsCoord_rescale (ps : List Vec) (h : maxAbsCoord ps > eps12) :
    maxAbsCoord (rescale ps) = 3 := by
  unfold rescale
  dsimp only []
  rw [if_pos h]
  have hm : (0 : ℚ) < maxAbsCoord ps := lt_trans (by norm_num [eps12]) h
  rw [maxAbsCoord_scale _ (by positivity) ps]
  field_simp

/-- C8. Degenerate and rescale behavior of the PCA projector: with a
single item every returned coordinate is 0 (its only Gram eigenvalue is
0 ≤ 1e-12, and the two missing axes are unset), for any square root and
any power-iteration initialisation; and whenever at least 3 items
project with any nonzero signal (pre-rescale maximum absolute coordinate
above the 1e-12 guard), the uniform rescale makes the maximum absolute
coordinate across all items exactly the visual bound 3. -/
theorem pcaProject_degenerate_and_bound :
    (∀ (sqrtQ : ℚ → ℚ) (init : ℕ → Vec) (e : Vec),
      pcaProject sqrtQ init [e] = [[0, 0, 0]]) ∧
    (∀ (sqrtQ : ℚ → ℚ) (init : ℕ → Vec) (embs : List Vec),
      3 ≤ embs.length → maxAbsCoord (pcaRaw sqrtQ init embs) > eps12 →
      maxAbsCoord (pcaProject sqrtQ init embs) = 3) := by
  constructor
  · intro sqrtQ init e
    have hraw : pcaRaw sqrtQ init [e] = [[0, 0, 0]] := by
      unfold pcaRaw
      dsimp only []
      rw [show ([e] : List Vec).headD [] = e from rfl]
      rw [show ([e] : List Vec).length = 1 from rfl]
      rw [meanVec_single]
      rw [show ([e] : List Vec).map (fun x => vsub x e) = [vsub e e] from rfl]
      rw [vsub_self]
      rw [show gramMatrix [List.replicate e.length 0] =
        [[dotQ (List.replicate e.length 0) (List.replicate e.length 0)]] from rfl]
      rw [dotQ_replicate_zero]
      rw [show min 3 1 = 1 from rfl]
      obtain ⟨v, hv⟩ := extractComponents_zero_gram sqrtQ init
      rw [hv]
      exact projectCoords_single_zero sqrtQ v
    unfold pcaProject
    rw [if_neg (by simp : ¬([e] : List Vec).length = 0), hraw]
    unfold rescale maxAbsCoord
    simp only [List.foldl_cons, List.foldl_nil, maxQ_eq_max, absQ_eq_abs,
      abs_zero, max_self]
    rw [if_neg (by norm_num [eps12] : ¬((0 : ℚ) > eps12))]
    norm_num
  · intro sqrtQ init embs hlen hsig
    have hne : ¬embs.length = 0 := by omega
    unfold pcaProject
    rw [if_neg hne]
    exact maxAbsCoord_rescale (pcaRaw sqrtQ init embs) hsig

/-- A concrete square-root table for the C8 witness (exact on the squared
norms arising there; 1 elsewhere). -/
def sqrtW : ℚ → ℚ :=
  fun q => if q = 8 then 2 else if q = 72 then 6 else if q = 648 then 18 else 1

/-- A concrete power-iteration initialisation for the C8 witness. -/
def initW : ℕ → Vec := fun _ => [1, 0, -1]

/-- Three well-separated one-dimensional embeddings. -/
def embsW : List Vec := [[0], [1], [2]]

lemma powerIterate_fixpoint (sqrtQ : ℚ → ℚ) (A : List Vec) (v : Vec)
    (hnb : ¬ sqrtQ (dotQ (matVec A v) (matVec A v)) < eps12)
    (hfix : (matVec A v).map
      (fun x => x / sqrtQ (dotQ (matVec A v) (matVec A v))) = v) :
    ∀ k, powerIterate sqrtQ A k v = v := by
  intro k
  induction k with
  | zero => rfl
  | succ n ih =>
    unfold powerIterate
    dsimp only []
    rw [if_neg hnb, hfix]
    exact ih

lemma powerIterate_period2 (sqrtQ : ℚ → ℚ) (A : List Vec) (v w : Vec)
    (hnb1 : ¬ sqrtQ (dotQ (matVec A v) (matVec A v)) < eps12)
    (hst1 : (matVec A v).map
      (fun x => x / sqrtQ (dotQ (matVec A v) (matVec A v))) = w)
    (hnb2 : ¬ sqrtQ (dotQ (matVec A w) (matVec A w)) < eps12)
    (hst2 : (matVec A w).map
      (fun x => x / sqrtQ (dotQ (matVec A w) (matVec A w))) = v) :
    ∀ k, powerIterate sqrtQ A (2 * k) v = v := by
  intro k
  induction k with
  | zero => rfl
  | succ n ih =>
    rw [show 2 * (n + 1) = 2 * n + 1 + 1 by ring]
    unfold powerIterate
    dsimp only []
    rw [if_neg hnb1, hst1]
    unfold powerIterate
    dsimp only []
    rw [if_neg hnb2, hst2]
    exact ih

/-- The power-iteration start vector of the witness. -/
def vW : Vec := [1, 0, -1]

/-- The Gram matrix of the centered witness embeddings. -/
def gramW0 : List Vec := [[1, 0, -1], [0, 0, 0], [-1, 0, 1]]

/-- The Gram matrix after deflating the first witness component. -/
def gramW1 : List Vec := [[-3, 0, 3], [0, 0, 0], [3, 0, -3]]

/-- The Gram matrix after deflating the second witness component. -/
def gramW2 : List Vec := [[9, 0, -9], [0, 0, 0], [-9, 0, 9]]

lemma powerIterate_gramW0 : powerIterate sqrtW gramW0 50 vW = vW := by
  have hmv : matVec gramW0 vW = [2, 0, -2] := by
    norm_num [matVec, dotQ, gramW0, vW, List.zipWith]
  apply powerIterate_fixpoint
  · rw [hmv]
    norm_num [dotQ, List.zipWith, sqrtW, eps12]
  · rw [hmv]
    norm_num [dotQ, List.zipWith, sqrtW, vW]

lemma powerIterate_gramW1 : powerIterate sqrtW gramW1 50 vW = vW := by
  have hmv : matVec gramW1 vW = [-6, 0, 6] := by
    norm_num [matVec, dotQ, gramW1, vW, List.zipWith]
  have hmw : matVec gramW1 [-1, 0, 1] = [6, 0, -6] := by
    norm_num [matVec, dotQ, gramW1, List.zipWith]
  rw [show (50 : ℕ) = 2 * 25 by norm_num]
  apply powerIterate_period2 sqrtW gramW1 vW [-1, 0, 1]
  · rw [hmv]
    norm_num [dotQ, List.zipWith, sqrtW, eps12]
  · rw [hmv]
    norm_num [dotQ, List.zipWith, sqrtW, vW]
  · rw [hmw]
    norm_num [dotQ, List.zipWith, sqrtW, eps12]
  · rw [hmw]
    norm_num [dotQ, List.zipWith, sqrtW, vW]

lemma powerIterate_gramW2 : powerIterate sqrtW gramW2 50 vW = vW := by
  have hmv : matVec gramW2 vW = [18, 0, -18] := by
    norm_num [matVec, dotQ, gramW2, vW, List.zipWith]
  apply powerIterate_fixpoint
  · rw [hmv]
    norm_num [dotQ, List.zipWith, sqrtW, eps12]
  · rw [hmv]
    norm_num [dotQ, List.zipWith, sqrtW, vW]

lemma extractComponents_witness :
    extractComponents sqrtW initW 3 0 gramW0 =
      [(vW, 4), (vW, -12), (vW, 36)] := by
  have hinit : ∀ c, initW c = vW := fun _ => rfl
  have hmv0 : matVec gramW0 vW = [2, 0, -2] := by
    norm_num [matVec, dotQ, gramW0, vW, List.zipWith]
  have hlam0 : dotQ vW (matVec gramW0 vW) = 4 := by
    rw [hmv0]
    norm_num [dotQ, vW, List.zipWith]
  have hdef0 : deflate gramW0 4 vW = gramW1 := by
    norm_num [deflate, gramW0, gramW1, vW, List.zip]
  have hmv1 : matVec gramW1 vW = [-6, 0, 6] := by
    norm_num [matVec, dotQ, gramW1, vW, List.zipWith]
  have hlam1 : dotQ vW (matVec gramW1 vW) = -12 := by
    rw [hmv1]
    norm_num [dotQ, vW, List.zipWith]
  have hdef1 : deflate gramW1 (-12) vW = gramW2 := by
    norm_num [deflate, gramW1, gramW2, vW, List.zip]
  have hmv2 : matVec gramW2 vW = [18, 0, -18] := by
    norm_num [matVec, dotQ, gramW2, vW, List.zipWith]
  have hlam2 : dotQ vW (matVec gramW2 vW) = 36 := by
    rw [hmv2]
    norm_num [dotQ, vW, List.zipWith]
  unfold extractComponents
  dsimp only []
  rw [hinit 0, powerIterate_gramW0, hlam0, hdef0]
  unfold extractComponents
  dsimp only []
  rw [hinit 1, powerIterate_gramW1, hlam1, hdef1]
  unfold extractComponents
  dsimp only []
  rw [hinit 2, powerIterate_gramW2, hlam2]
  rfl

lemma pcaRaw_embsW :
    pcaRaw sqrtW initW embsW = [[1, 0, 1], [0, 0, 0], [-1, 0, -1]] := by
  have hmean : meanVec embsW 1 = [1] := by
    norm_num [meanVec, colSum, embsW, List.zipWith, List.replicate]
  have hcent : embsW.map (fun e => vsub e [1]) = [[-1], [0], [1]] := by
    norm_num [vsub, embsW, List.zipWith]
  have hgram : gramMatrix [[-1], [0], [1]] = gramW0 := by
    norm_num [gramMatrix, dotQ, gramW0, List.zipWith]
  unfold pcaRaw
  dsimp only []
  rw [show embsW.headD [] = [0] from rfl]
  rw [show ([0] : Vec).length = 1 from rfl]
  rw [hmean, hcent, hgram]
  rw [show embsW.length = 3 from rfl, show min 3 3 = 3 from rfl]
  rw [extractComponents_witness]
  unfold projectCoords
  rw [show List.range 3 = [0, 1, 2] from rfl]
  simp only [List.map_cons, List.map_nil, List.get?]
  norm_num [vW, eps12, sqrtW]

lemma pcaRaw_embsW_signal : maxAbsCoord (pcaRaw sqrtW initW embsW) > eps12 := by
  rw [pcaRaw_embsW]
  norm_num [maxAbsCoord, maxQ, absQ, eps12]

/-- C8 witness: a single item projects to the origin, and the
three-item instance rescales to a maximum absolute coordinate of
exactly 3. -/
theorem pcaProject_degenerate_and_bound_witness :
    pcaProject sqrtW initW [[5, 7]] = [[0, 0, 0]] ∧
    maxAbsCoord (pcaProject sqrtW initW embsW) = 3 :=
  ⟨pcaProject_degenerate_and_bound.1 sqrtW initW [5, 7],
   pcaProject_degenerate_and_bound.2 sqrtW initW embsW
     (by norm_num [embsW]) pcaRaw_embsW_signal⟩

/-! ### Cosine similarity and the similarity-edge builder

The vectors GET handler computes, for every pair `i < j` of items,
`cosineSim` on the original (unprojected) embeddings and pushes
`{from: i, to: j, similarity: sim}` exactly when `sim > 0.5`. -/

/-- `cosineSim(a, b)`: `dot / (sqrt(normA) * sqrt(normB))` with a 0
fallback when the denominator is within the `1e-12` guard. `Math.sqrt`
is the opaque parameter `sqrtQ`. -/
def cosineSim (sqrtQ : ℚ → ℚ) (a b : Vec) : ℚ :=
  let dot := dotQ a b
  let denom := sqrtQ (dotQ a a) * sqrtQ (dotQ b b)
  if denom > eps12 then dot / denom else 0

/-- A similarity edge; `fromIdx`/`toIdx` are the source's `from`/`to`
item indices (`from` is a Lean keyword). -/
structure VectorEdge : Type where
  fromIdx : ℕ
  toIdx : ℕ
  similarity : ℚ
deriving DecidableEq

/-- The index pairs `(i, j)` with `i < j < n`, in the nested-loop order
of the source (`i` outer ascending, `j` from `i+1`). -/
def pairList (n : ℕ) : List (ℕ × ℕ) :=
  (List.range n).flatMap
    (fun i => ((List.range n).filter (fun j => decide (i < j))).map (fun j => (i, j)))

/-- The edge-construction loop: one edge per pair with cosine similarity
on the original embeddings strictly above `0.5`, carrying that
similarity. -/
def buildEdges (sqrtQ : ℚ → ℚ) (embs : List Vec) : List VectorEdge :=
  (pairList embs.length).filterMap (fun p =>
    let sim := cosineSim sqrtQ (embs.getD p.1 []) (embs.getD p.2 [])
    if sim > 1 / 2 then some ⟨p.1, p.2, sim⟩ else none)

lemma mem_pairList {n i j : ℕ} : (i, j) ∈ pairList n ↔ i < j ∧ j < n := by
  unfold pairList
  constructor
  · intro h
    obtain ⟨a, -, hmem⟩ := List.mem_flatMap.mp h
    obtain ⟨b, hb, hab⟩ := List.mem_map.mp hmem
    obtain ⟨hbr, hlt⟩ := List.mem_filter.mp hb
    cases hab
    exact ⟨of_decide_eq_true hlt, List.mem_range.mp hbr⟩
  · intro ⟨hij, hjn⟩
    refine List.mem_flatMap.mpr ⟨i, List.mem_range.mpr (lt_trans hij hjn), ?_⟩
    refine List.mem_map.mpr ⟨j, ?_, rfl⟩
    exact List.mem_filter.mpr ⟨List.mem_range.mpr hjn, decide_eq_true hij⟩

/-- C9. The similarity-graph edge builder emits, for a pair `i < j` of
items, an edge exactly when the cosine similarity of the *original*
(unprojected) embeddings strictly exceeds `0.5` — at similarity exactly
`0.5` no edge — and any emitted edge for that pair carries exactly the
computed cosine value in its `similarity` field. -/
theorem buildEdges_strict_threshold (sqrtQ : ℚ → ℚ) (embs : List Vec)
    (i j : ℕ) (hij : i < j) (hjn : j < embs.length) :
    ((∃ e ∈ buildEdges sqrtQ embs, e.fromIdx = i ∧ e.toIdx = j) ↔
      cosineSim sqrtQ (embs.getD i []) (embs.getD j []) > 1 / 2) ∧
    (∀ e ∈ buildEdges sqrtQ embs, e.fromIdx = i → e.toIdx = j →
      e.similarity = cosineSim sqrtQ (embs.getD i []) (embs.getD j [])) := by
  constructor
  · constructor
    · intro ⟨e, hmem, hfrom, hto⟩
      obtain ⟨p, -, hp⟩ := List.mem_filterMap.mp hmem
      by_cases hsim : cosineSim sqrtQ (embs.getD p.1 []) (embs.getD p.2 []) > 1 / 2
      · rw [if_pos hsim] at hp
        cases hp
        dsimp only [] at hfrom hto
        subst hfrom
        subst hto
        exact hsim
      · rw [if_neg hsim] at hp
        cases hp
    · intro hsim
      refine ⟨⟨i, j, cosineSim sqrtQ (embs.getD i []) (embs.getD j [])⟩, ?_, rfl, rfl⟩
      refine List.mem_filterMap.mpr ⟨(i, j), mem_pairList.mpr ⟨hij, hjn⟩, ?_⟩
      rw [if_pos hsim]
  · intro e hmem hfrom hto
    obtain ⟨p, -, hp⟩ := List.mem_filterMap.mp hmem
    by_cases hsim : cosineSim sqrtQ (embs.getD p.1 []) (embs.getD p.2 []) > 1 / 2
    · rw [if_pos hsim] at hp
      cases hp
      dsimp only [] at hfrom hto
      subst hfrom
      subst hto
      rfl
    · rw [if_neg hsim] at hp
      cases hp

/-- Square-root table for the C9 witness (exact at 5; 1 elsewhere,
exact on the unit norms arising there). -/
def sqrtE : ℚ → ℚ := fun q => if q = 5 then 2 else 1

/-- Witness embeddings: items 0 and 1 coincide (cosine 1), item 2 has
cosine exactly 1/2 with item 0 under `sqrtE`. -/
def embsE : List Vec := [[1, 0], [1, 0], [1, 2]]

/-- C9 witness: the coinciding pair (cosine 1 > 0.5) gets an edge whose
`similarity` is the computed cosine, while the pair at cosine exactly
0.5 gets none. -/
theorem buildEdges_strict_threshold_witness :
    ((∃ e ∈ buildEdges sqrtE embsE, e.fromIdx = 0 ∧ e.toIdx = 1) ↔
      cosineSim sqrtE (embsE.getD 0 []) (embsE.getD 1 []) > 1 / 2) ∧
    cosineSim sqrtE (embsE.getD 0 []) (embsE.getD 1 []) > 1 / 2 ∧
    ((∃ e ∈ buildEdges sqrtE embsE, e.fromIdx = 0 ∧ e.toIdx = 2) ↔
      cosineSim sqrtE (embsE.getD 0 []) (embsE.getD 2 []) > 1 / 2) ∧
    cosineSim sqrtE (embsE.getD 0 []) (embsE.getD 2 []) = 1 / 2 ∧
    (∀ e ∈ buildEdges sqrtE embsE, e.fromIdx = 0 → e.toIdx = 1 →
      e.similarity = cosineSim sqrtE (embsE.getD 0 []) (embsE.getD 1 [])) :=
  ⟨(buildEdges_strict_threshold sqrtE embsE 0 1 (by decide) (by decide)).1,
   by norm_num [cosineSim, dotQ, List.zipWith, embsE, List.getD, sqrtE, eps12],
   (buildEdges_strict_threshold sqrtE embsE 0 2 (by decide) (by decide)).1,
   by norm_num [cosineSim, dotQ, List.zipWith, embsE, List.getD, sqrtE, eps12],
   (buildEdges_strict_threshold sqrtE embsE 0 1 (by decide) (by decide)).2⟩

/-! ### The `semantic_search` tool (`executeTool` in the chat route)

`executeTool('semantic_search', input)` embeds the query; when an
embedding is returned it calls the `match_spark_items` RPC with
`match_threshold: 0.3, match_count: 10`; only if that call has no error
and yields at least one row does it return the rows labeled
"semantically relevant". In every other case — no embedding, RPC error,
or zero rows above the threshold — it falls through to a
case-insensitive `ILIKE '%query%'` search over title, content and
summary, limited to 10, labeled as a keyword match. The database is
modelled by the RPC outcome and the `spark_items` table rows. -/

/-- A `spark_items` row with the columns the tool selects. -/
structure SparkItem : Type where
  id : String
  spark_id : String
  title : String
  content : Option String
  summary : Option String
deriving DecidableEq

/-- The outcome of the `match_spark_items` RPC call (threshold 0.3,
count 10): a Postgres error or the rows above the threshold. -/
structure RpcResult : Type where
  error : Option String
  data : List SparkItem
deriving DecidableEq

/-- Substring test on character lists. -/
def charsContain (pat s : List Char) : Bool :=
  s.tails.any (fun t => pat.isPrefixOf t)

/-- `field ILIKE '%q%'`: case-insensitive containment; a NULL field
never matches. -/
def ilike (field : Option String) (q : String) : Bool :=
  match field with
  | none => false
  | some s => charsContain q.toLower.toList s.toLower.toList

/-- The fallback query
`.or('title.ilike.%q%,content.ilike.%q%,summary.ilike.%q%').limit(10)`
scoped to the Spark. -/
def keywordSearch (tbl : List SparkItem) (sparkId q : String) (lim : ℕ) :
    List SparkItem :=
  (tbl.filter (fun it =>
    decide (it.spark_id = sparkId) &&
      (ilike (some it.title) q || ilike it.content q || ilike it.summary q))).take lim

/-- The keyword-branch result prefix
(`Found ${kwData?.length || 0} items (keyword match):`). -/
def keywordLabel (n : ℕ) : String :=
  "Found " ++ toString n ++ " items (keyword match):"

/-- The semantic-branch result prefix. -/
def semanticLabel (n : ℕ) : String :=
  "Found " ++ toString n ++ " semantically relevant items:"

/-- The `semantic_search` case of `executeTool`, as result prefix plus
returned rows. `queryEmbedding` is the (possibly null) embedding of the
query, `rpc` the `match_spark_items` outcome, `tbl` the `spark_items`
table. -/
def executeToolSemantic (queryEmbedding : Option Vec) (rpc : RpcResult)
    (tbl : List SparkItem) (sparkId q : String) : String × List SparkItem :=
  let kw := keywordSearch tbl sparkId q 10
  match queryEmbedding with
  | some _ =>
    if rpc.error = none ∧ rpc.data ≠ [] then
      (semanticLabel rpc.data.length, rpc.data)
    else (keywordLabel kw.length, kw)
  | none => (keywordLabel kw.length, kw)

/-- C10. Whenever the query embedding succeeds but the cosine-similarity
RPC errors or returns zero rows above the 0.3 threshold, the tool
silently returns the `ILIKE` keyword search over title, content and
summary, labeled as a keyword match — so the fallback is triggered by
empty vector results, not only by embedding unavailability. -/
theorem semantic_search_keyword_fallback (emb : Vec) (rpc : RpcResult)
    (tbl : List SparkItem) (sid q : String)
    (h : rpc.error ≠ none ∨ rpc.data = []) :
    executeToolSemantic (some emb) rpc tbl sid q =
      (keywordLabel (keywordSearch tbl sid q 10).length,
       keywordSearch tbl sid q 10) := by
  unfold executeToolSemantic
  dsimp only []
  rw [if_neg ?_]
  intro ⟨hok, hne⟩
  cases h with
  | inl herr => exact herr hok
  | inr hempty => exact hne hempty

/-- The witness `spark_items` table: one note about pgvector. -/
def tblW : List SparkItem :=
  [{ id := "i1", spark_id := "s1", title := "Vector search notes",
     content := some "about pgvector", summary := none }]

/-- C10 witness: embedding succeeded (`some [1]`), the RPC answered
without error but with zero rows above the threshold, and the tool
returns the keyword-labeled `ILIKE` results. -/
theorem semantic_search_keyword_fallback_witness :
    executeToolSemantic (some [1]) ⟨none, []⟩ tblW "s1" "vector" =
      (keywordLabel (keywordSearch tblW "s1" "vector" 10).length,
       keywordSearch tblW "s1" "vector" 10) :=
  semantic_search_keyword_fallback [1] ⟨none, []⟩ tblW "s1" "vector"
    (Or.inr rfl)

end SparkFoundry
